import Mathlib

/-!
Shallow embedding of `src/logfile/logfile.py`, the log capture / rotation /
retention engine, together with proofs settling the specification claims.

Conventions used throughout:
* Filesystem directories are lists of file records; all operations happen in
  the single flat `logs/` directory, so the constant `logs/` path prefix added
  by `os.path.join('logs', ...)` is left implicit and files are keyed by their
  bare names.
* Python `float` values that reach comparisons or arithmetic are modelled as
  `ℚ` (no claim depends on binary rounding of the values involved).
* Byte counts are modelled as the number of characters written; the log stream
  is ASCII, where the two coincide.
-/

namespace Logfile

/-! ## Python primitives used by the script -/

/-- Characters stripped by Python `float(str)` before parsing (ASCII whitespace;
the full Unicode set never occurs in the inputs involved). -/
def isPyWs (c : Char) : Bool :=
  c == ' ' || c == '\t' || c == '\n' || c == '\r' || c == '\x0b' || c == '\x0c'

/-- Strip leading and trailing whitespace, as Python `float()` does. -/
def stripWs (l : List Char) : List Char :=
  ((l.dropWhile isPyWs).reverse.dropWhile isPyWs).reverse

def isDig (c : Char) : Bool := '0' ≤ c && c ≤ '9'

/-- Consume a leading run of decimal digits, allowing PEP 515 underscore
separators exactly as Python does: a single `_` may stand only between two
digits (after at least one consumed digit and directly before another).
Returns the accumulated value, the count of digits consumed, and the rest of
the input; an ill-placed underscore is left in the rest, where the caller's
grammar then fails, as Python `float` does. -/
def readDigits : List Char → Nat → Nat → Nat × Nat × List Char
  | c :: d :: rest, acc, cnt =>
      if isDig c then readDigits (d :: rest) (acc * 10 + (c.toNat - 48)) (cnt + 1)
      else if c = '_' && 0 < cnt && isDig d then readDigits (d :: rest) acc cnt
      else (acc, cnt, c :: d :: rest)
  | [c], acc, cnt =>
      if isDig c then (acc * 10 + (c.toNat - 48), cnt + 1, [])
      else (acc, cnt, [c])
  | [], acc, cnt => (acc, cnt, [])

/-- Result of a successful Python `float()`: a finite value (held exactly as a
rational; no claim depends on binary rounding of finite values) or an
infinity, which Python returns — without raising — for literals beyond the
IEEE-754 binary64 range. -/
inductive PyFloat where
  | finite (q : ℚ)
  | inf
  | negInf
deriving Repr, DecidableEq

/-- Overflow threshold of IEEE-754 binary64: under round-to-nearest-even a
literal whose exact magnitude is at least `2^1024 - 2^970` converts to
infinity (the largest finite double is `2^1024 - 2^971`). -/
def overflowNum : Nat := 2 ^ 1024 - 2 ^ 970

/-- Whether the literal `mant / 10^frac * 10^(±e)` overflows to infinity,
decided in exact integer arithmetic. -/
def overflows (mant frac : Nat) (eneg : Bool) (e : Nat) : Bool :=
  if eneg then decide (overflowNum * 10 ^ frac * 10 ^ e ≤ mant)
  else decide (overflowNum * 10 ^ frac ≤ mant * 10 ^ e)

/-- Exact value of a finite literal `mant / 10^frac * 10^(±e)`. -/
def litVal (mant frac : Nat) (eneg : Bool) (e : Nat) : ℚ :=
  if eneg then ((mant : ℚ) / 10 ^ frac) / 10 ^ e
  else ((mant : ℚ) / 10 ^ frac) * 10 ^ e

/-- Assemble the `float()` result from the parsed sign, mantissa digits,
fraction length and exponent, applying the overflow rule. -/
def mkPyFloat (neg : Bool) (mant frac : Nat) (eneg : Bool) (e : Nat) : PyFloat :=
  if overflows mant frac eneg e then (if neg then .negInf else .inf)
  else .finite ((if neg then (-1 : ℚ) else 1) * litVal mant frac eneg e)

/-- After the mantissa, Python `float` accepts an optional exponent part and
then requires end of input; returns the exponent's sign and magnitude. -/
def parseExpPart : List Char → Option (Bool × Nat)
  | [] => some (false, 0)
  | c :: rest =>
      if c == 'e' || c == 'E' then
        match rest with
        | '+' :: r =>
            match readDigits r 0 0 with
            | (v, cnt, []) => if 0 < cnt then some (false, v) else none
            | _ => none
        | '-' :: r =>
            match readDigits r 0 0 with
            | (v, cnt, []) => if 0 < cnt then some (true, v) else none
            | _ => none
        | r =>
            match readDigits r 0 0 with
            | (v, cnt, []) => if 0 < cnt then some (false, v) else none
            | _ => none
      else none

/-- Body of a Python float literal after the optional sign:
`digits [. digits] [exp]` or `. digits [exp]`. -/
def pyFloatBody (neg : Bool) (l : List Char) : Option PyFloat :=
  match readDigits l 0 0 with
  | (ip, ic, l2) =>
    match l2 with
    | '.' :: l3 =>
        match readDigits l3 0 0 with
        | (fp, fc, l4) =>
            if 0 < ic + fc then
              (parseExpPart l4).map (fun se => mkPyFloat neg (ip * 10 ^ fc + fp) fc se.1 se.2)
            else none
    | _ =>
        if 0 < ic then (parseExpPart l2).map (fun se => mkPyFloat neg ip 0 se.1 se.2)
        else none

/-- Mantissa with optional sign of a Python float literal. -/
def pyFloatCore : List Char → Option PyFloat
  | '+' :: l => pyFloatBody false l
  | '-' :: l => pyFloatBody true l
  | l => pyFloatBody false l

/-- Python `float(s)` on numeric literals: strip whitespace; sign, digits with
PEP 515 underscores, optional fraction and exponent; a literal beyond the
binary64 range yields `inf`/`negInf`, as Python's does. The literal words
`inf`/`infinity`/`nan` are not modelled: in the line transform they behave
exactly like a parse failure (`time.localtime` raises on non-finite values
and the bare `except` leaves the token unchanged), and no claim concerns
them elsewhere. -/
def pyFloat (s : String) : Option PyFloat := pyFloatCore (stripWs s.data)

/-- Model of `str.split(' ')` (line 100), presented as (first field, remaining
fields); splitting always yields at least one field, the one the code mutates. -/
def splitSpF : List Char → List Char × List (List Char)
  | [] => ([], [])
  | c :: rest =>
      let p := splitSpF rest
      if c = ' ' then ([], p.1 :: p.2) else (c :: p.1, p.2)

/-- Model of the tail of `' '.join` (line 105): every field after the first is
preceded by one space character. -/
def tailJoin : List (List Char) → List Char
  | [] => []
  | w :: ws => ' ' :: (w ++ tailJoin ws)

/-- Lines 100–105 of `write_logs`: decode, `split(' ')`, try to parse field 0
as an epoch timestamp and replace it with the formatted local time, rejoin.
`fmt` abstracts `time.strftime('%Y-%m-%d %H:%M:%S', time.localtime ·)`, the
external calendar/timezone conversion, as a partial function: `fmt q = none`
models the conversion raising (an epoch outside the platform's representable
local-time range). The bare `except: pass` (lines 103–104) absorbs every
failure of the step — a `float` parse error, an infinite parsed value
(`time.localtime` always raises on those), or a raising conversion of a
finite value — leaving the field unchanged; none is ever fatal. -/
def transformLine (fmt : ℚ → Option String) (line : String) : String :=
  match splitSpF line.data with
  | (tok, ws) =>
    match pyFloat ⟨tok⟩ with
    | some (.finite q) =>
        match fmt q with
        | some t => ⟨t.data ++ tailJoin ws⟩
        | none => ⟨tok ++ tailJoin ws⟩
    | _ => ⟨tok ++ tailJoin ws⟩

/-- First whitespace-delimited token of a line (what the claim's "first
whitespace-delimited token" denotes, as in Python `str.split()` with no
argument); used to compare the claimed behaviour with the code's space-only
splitting. -/
def wsTok (line : String) : String := ⟨line.data.takeWhile (fun c => !(isPyWs c))⟩

/-- Concrete time string of the `YYYY-MM-DD HH:MM:SS` shape produced by the
strftime format of line 102; used only at concrete inputs. -/
def fmtStamp : String := "1970-01-01 00:00:01"

/-- Concrete stand-in for a conversion that succeeds, rendering `fmtStamp`;
used only at concrete inputs. -/
def fmtFixed : ℚ → Option String := fun _ => some fmtStamp

/-! ## The capture loop of `write_logs` (lines 89–114) -/

/-- One result of `tail.stdout.readline()` inside the `for` loop, or a raised
exception. `line s` is a read that decodes to `s`; `err` is any exception
raised inside the `try` block while tailing (a failed read, a
`UnicodeDecodeError`, a failed write/flush/sync), which control transfers to
the handler at lines 113–114. -/
inductive Read where
  | line (s : String)
  | err
deriving Repr, DecidableEq

/-- How a run of the capture loop ends. `rotated c` is the return at
lines 109–112 (file closed holding `c`, one-second sleep, return);
`excLogged c` is the handler at lines 113–114 (`cp.log(f'Exception! {e}')`,
then return with the file holding `c`). -/
inductive Outcome where
  | rotated (content : List Char)
  | excLogged (content : List Char)
deriving Repr, DecidableEq

/-- The `for line in iter(tail.stdout.readline, ''): ...` loop of `write_logs`
(lines 97–112), run for `fuel` iterations; `none` means the loop is still
running after `fuel` iterations.

State: `content` is the text written to the open file so far (so
`f.tell() = content.length` for the ASCII stream), `stream` the pending reads.
An exhausted `stream` models the tail process having terminated: from then on
`readline()` returns `b''` forever.  Two facts of the source are reflected
here: the sentinel of `iter(tail.stdout.readline, '')` is the *str* `''`,
which no *bytes* result — `b''` included — ever equals, so end of stream never
stops the iteration; and `tail.returncode` stays `None` because `poll()` is
never called, so the `break` at lines 98–99 never fires. Hence at end of
stream the loop decodes `b''` to `''`, writes it, and keeps iterating. -/
def writeRun (fmt : ℚ → Option String) (maxFileSize : ℚ) :
    Nat → List Char → List Read → Option Outcome
  | 0, _, _ => none
  | fuel + 1, content, stream =>
    match stream with
    | .err :: _ => some (.excLogged content)
    | .line s :: rest =>
        let content' := content ++ (transformLine fmt s).data
        if maxFileSize < (content'.length : ℚ) then some (.rotated content')
        else writeRun fmt maxFileSize fuel content' rest
    | [] =>
        let content' := content ++ (transformLine fmt "").data
        if maxFileSize < (content'.length : ℚ) then some (.rotated content')
        else writeRun fmt maxFileSize fuel content' []

/-- Line 93 of `write_logs`: `f = open(logpath, 'wt')`. A directory is a list
of (name, content) pairs; mode `'wt'` truncates an existing file of that name
to empty, else creates an empty file. -/
def openWt (dir : List (String × String)) (n : String) : List (String × String) :=
  if dir.any (fun e => e.1 == n) then
    dir.map (fun e => if e.1 == n then (e.1, "") else e)
  else dir ++ [(n, "")]

/-! ## The compressor, `compress_files` (lines 58–87) -/

/-- A directory entry as the compressor sees it: a bare file name and the
modification time `os.path.getmtime` reports. -/
structure CFile where
  name : String
  mtime : Int
deriving Repr, DecidableEq

/-- All names present in a directory listing. -/
def namesOf (fs : List CFile) : List String := fs.map (fun f => f.name)

/-- Model of `os.path.exists` inside the single `logs/` directory. -/
def existsFile (fs : List CFile) (n : String) : Bool := decide (n ∈ namesOf fs)

/-- Python `f.endswith(suf)`: the suffix test used at line 60. -/
def endsW (s suf : String) : Bool :=
  decide (s.data.drop (s.data.length - suf.data.length) = suf.data)

/-- Decimal rendering of a natural number (the digits of `f'{i:d}'`). -/
def decStr (n : Nat) : String :=
  if n = 0 then "0" else ⟨((Nat.digits 10 n).reverse.map Nat.digitChar)⟩

/-- Python `f'{i:03d}'`: decimal, left-padded with zeros to width 3. -/
def fmt3 (i : Nat) : String :=
  ⟨List.replicate (3 - (decStr i).data.length) '0' ++ (decStr i).data⟩

/-- The probed archive name `f'{path}.{i:03d}.tar.gz'` of line 71. -/
def tarName (path : String) (i : Nat) : String :=
  path ++ "." ++ fmt3 i ++ ".tar.gz"

/-- Length of the longest file name in the directory; only used to give the
collision-probing loop enough fuel. -/
def maxNameLen (fs : List CFile) : Nat :=
  (namesOf fs).foldr (fun n m => max n.data.length m) 0

/-- The `while True` probing loop of lines 69–74: starting at index `i`, return
the first index whose archive name is unused. The source loop is unbounded;
here it carries fuel, returning the current index if the fuel runs out — a
case proved unreachable for the fuel `pickTarball` supplies (`probe_correct`
and `tarName_big_free` below). -/
def probe (fs : List CFile) (path : String) : Nat → Nat → Nat
  | 0, i => i
  | fuel + 1, i => if existsFile fs (tarName path i) then probe fs path fuel (i + 1) else i

/-- Lines 66–74: the archive name for source `path` is `f'{path}.tar.gz'`,
deconflicted by the index probe when that name is taken. -/
def pickTarball (fs : List CFile) (path : String) : String :=
  if existsFile fs (path ++ ".tar.gz") then
    tarName path (probe fs path (10 ^ maxNameLen fs + 1) 0)
  else path ++ ".tar.gz"

/-- Environment for the fallible part of an iteration: whether
`tarfile.open/add` raises for a given source file (keyed by its name), and
whether in that case a half-written archive file is left on disk for the
handler's `os.path.exists` check to find. -/
structure TarEnv where
  tarFails : String → Bool
  debrisLeft : String → Bool

/-- Creation of a file entry (append to the directory listing). -/
def addFile (fs : List CFile) (f : CFile) : List CFile := fs ++ [f]

/-- Model of `os.remove` by name. -/
def removeFile (fs : List CFile) (n : String) : List CFile :=
  fs.filter (fun f => !(f.name == n))

/-- One iteration of the `for logfile in logfiles` loop (lines 61–87) on
source file `src`, returning the directory afterwards and the `cp.log`
messages emitted. On success: the archive is created under the picked name,
`os.utime` forces its mtime to the source's (line 80), and the source is
removed (line 83). On a `tarfile` exception: the handler logs, and removes
the partial archive if one exists (lines 84–87); the source is untouched.
The partial file's mtime is irrelevant (it is removed at once). -/
def compressOne (env : TarEnv) (fs : List CFile) (src : CFile) : List CFile × List String :=
  let tarball := pickTarball fs src.name
  if env.tarFails src.name then
    (if env.debrisLeft src.name then
       removeFile (addFile fs ⟨tarball, src.mtime⟩) tarball
     else fs,
     ["Compression failed for " ++ src.name])
  else
    (removeFile (addFile fs ⟨tarball, src.mtime⟩) src.name, [])

/-- The `for` loop of `compress_files` over the candidate list computed once
at line 60, threading the directory state and accumulating log messages. -/
def compressGo (env : TarEnv) : List CFile → List CFile → List String → List CFile × List String
  | [], fs, log => (fs, log)
  | f :: rest, fs, log =>
      match compressOne env fs f with
      | (fs', msgs) => compressGo env rest fs' (log ++ msgs)

/-- Lines 58–87, `compress_files`: list the `.txt` files, then compress each
in turn. -/
def compress_files (env : TarEnv) (fs : List CFile) : List CFile × List String :=
  compressGo env (fs.filter (fun f => endsW f.name ".txt")) fs []

/-! ## The retention reaper, `rotate_files` (lines 116–127) -/

/-- A directory entry as the reaper sees it: name, size in bytes, mtime. -/
structure RFile where
  name : String
  size : Nat
  mtime : Int
deriving Repr, DecidableEq

/-- Sum of `os.path.getsize` over the directory (line 120). -/
def totalSize (fs : List RFile) : Nat := (fs.map (fun f => f.size)).sum

/-- The `while` loop of lines 123–127. The Python list is sorted newest first
and `pop()` takes the oldest from its end; the embedding keeps the list oldest
first and pops from the head, the same traversal. `total` is the running
`total_size`; the budget is `ℚ` since `max_total_storage` is a Python float. -/
def reapLoop (budget : ℚ) : List RFile → ℚ → List RFile
  | [], _ => []
  | f :: rest, total =>
      if budget < total then reapLoop budget rest (total - (f.size : ℚ))
      else f :: rest

/-- Lines 116–127, `rotate_files`: sort the directory by mtime (oldest first,
see `reapLoop`), then delete oldest-first while the total size exceeds the
budget and files remain. -/
def rotate_files (budget : ℚ) (dir : List RFile) : List RFile :=
  reapLoop budget (List.insertionSort (fun a b => a.mtime ≤ b.mtime) dir)
    ((totalSize (List.insertionSort (fun a b => a.mtime ≤ b.mtime) dir) : ℚ))

/-! ## The config provider, `get_config_value` (lines 43–56) and `main` -/

/-- One record of the `sdk/appdata` collection; `item.get` yields `none` for a
missing field. -/
structure AppItem where
  name : Option String
  value : Option String
deriving Repr, DecidableEq

/-- Result of `cp.get('/config/system/sdk/appdata')`: the call can raise
(unreachable store), or return `None`, or return a list of records. -/
inductive Store where
  | raised
  | ok (data : Option (List AppItem))

/-- The `for item in appdata` loop of lines 48–52 with the fall-through
`return default` of line 53. A matching item whose value is missing or empty
(falsy) does not return: the loop continues. `float(value)` raising is
caught by the handler at lines 54–56, which returns the default — so an
unparseable value yields the default immediately. A value parsing to an
infinity is returned by Python as the (infinite) limit; `ℚ` cannot represent
it, so the model substitutes the default there — a documented divergence in a
case no claim quantifies over (such values parse successfully). -/
def gcvLoop (key : String) (default : ℚ) : List AppItem → ℚ
  | [] => default
  | it :: rest =>
      if it.name = some key then
        match it.value with
        | some v =>
            if v ≠ "" then
              match pyFloat v with
              | some (.finite q) => q
              | some .inf => default
              | some .negInf => default
              | none => default
            else gcvLoop key default rest
        | none => gcvLoop key default rest
      else gcvLoop key default rest

/-- Lines 43–56, `get_config_value`. An unreachable store hits the handler
(default); a `None` or empty `appdata` is falsy, skipping to `return default`;
otherwise the loop runs. An empty record list also reaches `return default`,
which `gcvLoop []` gives directly. -/
def get_config_value (store : Store) (key : String) (default : ℚ) : ℚ :=
  match store with
  | .raised => default
  | .ok none => default
  | .ok (some items) => gcvLoop key default items

/-- Line 31: `MB = 2**20`. -/
def MB : Nat := 2 ^ 20

/-- Lines 132–133 of `main`: the two tunables read once at startup, scaled
from MB to bytes. -/
def effectiveLimits (store : Store) : ℚ × ℚ :=
  (get_config_value store "logfile_max_file_size_MB" 10 * (MB : ℚ),
   get_config_value store "logfile_max_total_storage_MB" 50 * (MB : ℚ))

/-- Content of the capture file after the first `k` writes of a line stream:
the concatenation of the first `k` transformed lines. -/
def writtenPrefix (fmt : ℚ → Option String) (lines : List String) (k : Nat) : List Char :=
  ((lines.take k).map (fun l => (transformLine fmt l).data)).flatten

/-! ## Lemmas: the retention reaper -/

theorem totalSize_nil : totalSize [] = 0 := rfl

theorem totalSize_cons (f : RFile) (l : List RFile) :
    totalSize (f :: l) = f.size + totalSize l := by
  simp [totalSize]

theorem reapLoop_le (budget : ℚ) (h0 : 0 ≤ budget) :
    ∀ (l : List RFile) (total : ℚ), total = (totalSize l : ℚ) →
      ((totalSize (reapLoop budget l total) : ℚ)) ≤ budget := by
  intro l
  induction l with
  | nil => intro total _; simpa [reapLoop, totalSize] using h0
  | cons f rest ih =>
      intro total ht
      by_cases hlt : budget < total
      · rw [show reapLoop budget (f :: rest) total
              = reapLoop budget rest (total - (f.size : ℚ)) by simp [reapLoop, hlt]]
        apply ih
        rw [ht, totalSize_cons]
        push_cast
        ring
      · rw [show reapLoop budget (f :: rest) total = f :: rest by simp [reapLoop, hlt]]
        rw [← ht]
        exact not_lt.mp hlt

/-- The trivial sort fact needed for singleton directories. -/
theorem insertionSort_singleton (f : RFile) :
    List.insertionSort (fun a b => a.mtime ≤ b.mtime) [f] = [f] := rfl

/-! ## Claim C4 -/

/-- C4: for every directory state and nonnegative budget, after `rotate_files`
completes, the total size of the files in the directory is at most the budget,
or exactly one file remains whose individual size exceeds the budget. (The
first disjunct in fact always holds; see C5.) -/
theorem c4_retention_bound (dir : List RFile) (budget : ℚ) (h0 : 0 ≤ budget) :
    ((totalSize (rotate_files budget dir) : ℚ) ≤ budget) ∨
    (∃ f, rotate_files budget dir = [f] ∧ budget < (f.size : ℚ)) :=
  Or.inl (reapLoop_le budget h0 _ _ rfl)

/-- Closed instance of `c4_retention_bound`. -/
theorem c4_retention_bound_witness :
    (0 : ℚ) ≤ 50 ∧
    (((totalSize (rotate_files 50 [⟨"a", 30, 1⟩, ⟨"b", 40, 2⟩, ⟨"c", 20, 3⟩]) : ℚ) ≤ 50) ∨
     (∃ f, rotate_files 50 [⟨"a", 30, 1⟩, ⟨"b", 40, 2⟩, ⟨"c", 20, 3⟩] = [f] ∧ 50 < (f.size : ℚ))) :=
  ⟨by norm_num, c4_retention_bound [⟨"a", 30, 1⟩, ⟨"b", 40, 2⟩, ⟨"c", 20, 3⟩] 50 (by norm_num)⟩

/-! ## Claim C5 -/

/-- C5: for every directory state and nonnegative budget, `rotate_files` ends
with total size at most the budget unconditionally; a single file larger than
the whole budget is itself deleted when it is the last file remaining, so the
"one oversized file remains" outcome never occurs. -/
theorem c5_retention_tight (dir : List RFile) (budget : ℚ) (h0 : 0 ≤ budget) :
    ((totalSize (rotate_files budget dir) : ℚ) ≤ budget) ∧
    (∀ f : RFile, budget < (f.size : ℚ) → rotate_files budget [f] = []) ∧
    ¬ ∃ f, rotate_files budget dir = [f] ∧ budget < (f.size : ℚ) := by
  refine ⟨reapLoop_le budget h0 _ _ rfl, ?_, ?_⟩
  · intro f hf
    unfold rotate_files
    rw [insertionSort_singleton]
    have h1 : budget < ((totalSize [f] : ℚ)) := by
      rw [totalSize_cons, totalSize_nil]
      push_cast
      simpa using hf
    simp [reapLoop, h1]
  · rintro ⟨f, hf, hsize⟩
    have hle := reapLoop_le budget h0
      (List.insertionSort (fun a b => a.mtime ≤ b.mtime) dir)
      ((totalSize (List.insertionSort (fun a b => a.mtime ≤ b.mtime) dir) : ℚ)) rfl
    rw [show reapLoop budget (List.insertionSort (fun a b => a.mtime ≤ b.mtime) dir)
          ((totalSize (List.insertionSort (fun a b => a.mtime ≤ b.mtime) dir) : ℚ))
          = rotate_files budget dir from rfl, hf, totalSize_cons, totalSize_nil] at hle
    push_cast at hle
    linarith

/-- Closed instance of `c5_retention_tight`: a lone 100-byte file against a
50-byte budget. -/
theorem c5_retention_tight_witness :
    ((totalSize (rotate_files 50 [⟨"big", 100, 1⟩]) : ℚ) ≤ 50) ∧
    (∀ f : RFile, (50 : ℚ) < (f.size : ℚ) → rotate_files 50 [f] = []) ∧
    ¬ ∃ f, rotate_files 50 [⟨"big", 100, 1⟩] = [f] ∧ (50 : ℚ) < (f.size : ℚ) :=
  c5_retention_tight [⟨"big", 100, 1⟩] 50 (by norm_num)

/-! ## Lemmas: the config provider -/

theorem gcvLoop_default (key : String) (d : ℚ) :
    ∀ items : List AppItem,
      (∀ it ∈ items, it.name = some key → ∀ v, it.value = some v → v ≠ "" → pyFloat v = none) →
      gcvLoop key d items = d := by
  intro items
  induction items with
  | nil => intro _; rfl
  | cons it rest ih =>
      intro h
      by_cases hn : it.name = some key
      · rcases hv : it.value with _ | v
        · simp [gcvLoop, hn, hv]
          exact ih fun g hg => h g (List.mem_cons_of_mem _ hg)
        · by_cases he : v = ""
          · simp [gcvLoop, hn, hv, he]
            exact ih fun g hg => h g (List.mem_cons_of_mem _ hg)
          · have hp : pyFloat v = none := h it (List.mem_cons_self _ _) hn v hv he
            simp [gcvLoop, hn, hv, he, hp]
      · simp [gcvLoop, hn]
        exact ih fun g hg => h g (List.mem_cons_of_mem _ hg)

/-! ## Claim C9 -/

/-- C9: when the config store is unreachable, the key is absent, its value
field is missing or empty, or its value fails to parse, `get_config_value`
returns the caller's default (no exception escapes: the model is a total
function), and the effective limits computed by `main` under the defaults are
10 MB and 50 MB in bytes. -/
theorem c9_config_defaults (key : String) (d : ℚ) :
    get_config_value .raised key d = d ∧
    get_config_value (.ok none) key d = d ∧
    (∀ items : List AppItem,
      (∀ it ∈ items, it.name = some key → ∀ v, it.value = some v → v ≠ "" → pyFloat v = none) →
      get_config_value (.ok (some items)) key d = d) ∧
    effectiveLimits .raised = (10485760, 52428800) := by
  refine ⟨rfl, rfl, ?_, ?_⟩
  · intro items h
    exact gcvLoop_default key d items h
  · norm_num [effectiveLimits, get_config_value, MB]

/-- Closed instance of `c9_config_defaults`: one matching record whose value
does not parse as a number. -/
theorem c9_config_defaults_witness :
    get_config_value (.ok (some [⟨some "logfile_max_file_size_MB", some "ten"⟩]))
      "logfile_max_file_size_MB" 10 = 10 ∧
    effectiveLimits .raised = (10485760, 52428800) := by
  have h := c9_config_defaults "logfile_max_file_size_MB" 10
  refine ⟨h.2.2.1 _ ?_, h.2.2.2⟩
  intro it hit hn v hv he
  rcases List.mem_singleton.mp hit with rfl
  have hv' : "ten" = v := by simpa using hv
  rw [← hv']
  rfl

/-! ## Claim C1 -/

/-- C1: the claim says that when the external stream process terminates (end
of stream), `write_logs` logs it and returns. The code does not: the sentinel
of `iter(tail.stdout.readline, '')` is the str `''`, which the bytes `b''`
returned at end of stream never equals, and `tail.returncode` remains `None`
since `poll()` is never called — so at end of stream the loop runs forever,
writing decoded empty strings, and `write_logs` never returns. This theorem
evaluates the code at the failing input: an exhausted stream, an empty file
and the default 10 MB threshold; no number of loop iterations produces a
return. (The exception half of the claim does hold: see the `.err` branch of
`writeRun`.) -/
theorem c1_eof_never_returns (fuel : Nat) :
    writeRun fmtFixed (10 * (MB : ℚ)) fuel [] [] = none := by
  induction fuel with
  | zero => rfl
  | succ n ih =>
      have ht : (transformLine fmtFixed "").data = ([] : List Char) := rfl
      have hno : ¬ (10 * (MB : ℚ) < ((([] : List Char) ++ (transformLine fmtFixed "").data).length : ℚ)) := by
        rw [ht]
        norm_num [MB]
      simp only [writeRun, if_neg hno]
      simpa [ht] using ih

/-! ## Claim C2 -/

/-- C2: the claim says that when `write_logs` opens its capture file and a
file of that exact name already exists (same-second restart), the existing
data is not silently overwritten or truncated. The code opens with mode
`'wt'` (line 93), which truncates: this theorem evaluates the open step at the
failing input — an existing capture file holding unflushed data — and shows
the data is silently replaced by the empty string. -/
theorem c2_open_truncates :
    openWt [("Log - 0030443B3877 2026-01-26 09:52:25.txt", "unflushed line")]
        "Log - 0030443B3877 2026-01-26 09:52:25.txt"
      = [("Log - 0030443B3877 2026-01-26 09:52:25.txt", "")] := by
  rfl

/-! ## Lemmas: splitting and rejoining on spaces -/

theorem splitSpF_join (l : List Char) :
    (splitSpF l).1 ++ tailJoin (splitSpF l).2 = l := by
  induction l with
  | nil => rfl
  | cons c rest ih =>
      by_cases hc : c = ' '
      · subst hc
        simp [splitSpF, tailJoin, ih]
      · simp [splitSpF, hc, ih]

theorem splitSpF_fst (l : List Char) :
    (splitSpF l).1 = l.takeWhile (fun c => !(c == ' ')) := by
  induction l with
  | nil => rfl
  | cons c rest ih =>
      by_cases hc : c = ' '
      · subst hc
        simp [splitSpF, List.takeWhile_cons]
      · simp [splitSpF, List.takeWhile_cons, hc, ih]

theorem tailJoin_splitSpF (l : List Char) :
    tailJoin (splitSpF l).2 = l.dropWhile (fun c => !(c == ' ')) := by
  have h1 := splitSpF_join l
  rw [splitSpF_fst] at h1
  exact List.append_cancel_left
    (h1.trans (List.takeWhile_append_dropWhile (fun c => !(c == ' ')) l).symm)

/-- Unfolding of `transformLine` through the pair match. -/
theorem transformLine_eq (fmt : ℚ → Option String) (line : String) :
    transformLine fmt line =
      match pyFloat ⟨(splitSpF line.data).1⟩ with
      | some (.finite q) =>
          match fmt q with
          | some t => ⟨t.data ++ tailJoin (splitSpF line.data).2⟩
          | none => ⟨(splitSpF line.data).1 ++ tailJoin (splitSpF line.data).2⟩
      | _ => ⟨(splitSpF line.data).1 ++ tailJoin (splitSpF line.data).2⟩ := rfl

/-- Branch of `transformLine` where the token parses finite and the conversion
succeeds. -/
theorem transformLine_finite_some (fmt : ℚ → Option String) (line : String)
    (q : ℚ) (t : String)
    (hq : pyFloat ⟨(splitSpF line.data).1⟩ = some (.finite q)) (ht : fmt q = some t) :
    transformLine fmt line = ⟨t.data ++ tailJoin (splitSpF line.data).2⟩ := by
  rw [transformLine_eq, hq]
  show (match fmt q with
    | some u => (⟨u.data ++ tailJoin (splitSpF line.data).2⟩ : String)
    | none => ⟨(splitSpF line.data).1 ++ tailJoin (splitSpF line.data).2⟩)
      = ⟨t.data ++ tailJoin (splitSpF line.data).2⟩
  rw [ht]

/-- Branch of `transformLine` where the token parses finite but the conversion
raises. -/
theorem transformLine_finite_none (fmt : ℚ → Option String) (line : String) (q : ℚ)
    (hq : pyFloat ⟨(splitSpF line.data).1⟩ = some (.finite q)) (ht : fmt q = none) :
    transformLine fmt line
      = ⟨(splitSpF line.data).1 ++ tailJoin (splitSpF line.data).2⟩ := by
  rw [transformLine_eq, hq]
  show (match fmt q with
    | some u => (⟨u.data ++ tailJoin (splitSpF line.data).2⟩ : String)
    | none => ⟨(splitSpF line.data).1 ++ tailJoin (splitSpF line.data).2⟩)
      = ⟨(splitSpF line.data).1 ++ tailJoin (splitSpF line.data).2⟩
  rw [ht]

/-! ## Claim C8 -/

set_option maxRecDepth 20000 in
/-- C8 counterexample: the claim says the *whitespace*-delimited first token is
parsed and, on success, replaced. On the tab-delimited line `"1.0\tx"` the
first whitespace-delimited token is `"1.0"`, which parses as a (finite)
number, yet the code — which splits on the space character only (line 100:
`split(' ')`) — writes the line through unchanged rather than replacing the
token with the time string. -/
theorem c8_whitespace_counterexample :
    wsTok "1.0\tx" = "1.0" ∧
    (pyFloat (wsTok "1.0\tx")).isSome = true ∧
    transformLine fmtFixed "1.0\tx" = "1.0\tx" ∧
    transformLine fmtFixed "1.0\tx" ≠ ⟨fmtStamp.data ++ "\tx".data⟩ := by
  refine ⟨rfl, by decide, by decide, ?_⟩
  intro h
  have h1 : (transformLine fmtFixed "1.0\tx").data.length = 5 := by decide
  rw [h] at h1
  exact absurd h1 (by decide)

/-- C8 (amended): for every input line, the capture step parses the line's
first *space*-delimited token (the prefix before the first space character, as
by `split(' ')`) as an epoch timestamp; when the token parses to a finite
value on which the local-time conversion and `%Y-%m-%d %H:%M:%S` formatting
(abstracted by `fmt`) succeed, the token is replaced by that time string and
the rest of the line (from the first space on) is unchanged; in every other
case — a parse failure, an infinite parsed value, or the conversion raising on
an out-of-range finite epoch — the entire line is written through unchanged,
and none of these errors is ever fatal (`transformLine` is total). -/
theorem c8_space_token_rewrite (fmt : ℚ → Option String) (line : String) :
    (pyFloat ⟨line.data.takeWhile (fun c => !(c == ' '))⟩ = none →
      transformLine fmt line = line) ∧
    (∀ q, pyFloat ⟨line.data.takeWhile (fun c => !(c == ' '))⟩ = some (.finite q) →
      (∀ t, fmt q = some t →
        (transformLine fmt line).data
          = t.data ++ line.data.dropWhile (fun c => !(c == ' '))) ∧
      (fmt q = none → transformLine fmt line = line)) ∧
    (∀ v, pyFloat ⟨line.data.takeWhile (fun c => !(c == ' '))⟩ = some v →
      v = .inf ∨ v = .negInf → transformLine fmt line = line) := by
  have hline : String.mk ((splitSpF line.data).1 ++ tailJoin (splitSpF line.data).2)
      = line := by
    rw [splitSpF_join]
  refine ⟨?_, ?_, ?_⟩
  · intro hp
    rw [splitSpF_fst] at hline
    rw [transformLine_eq, ← splitSpF_fst] at *
    rw [hp]
    exact hline
  · intro q hq
    rw [← splitSpF_fst] at hq
    constructor
    · intro t ht
      rw [transformLine_finite_some fmt line q t hq ht]
      show t.data ++ tailJoin (splitSpF line.data).2
          = t.data ++ line.data.dropWhile (fun c => !(c == ' '))
      rw [tailJoin_splitSpF]
    · intro ht
      rw [transformLine_finite_none fmt line q hq ht]
      exact hline
  · intro v hv hcase
    rw [← splitSpF_fst] at hv
    rcases hcase with rfl | rfl
    · rw [transformLine_eq, hv]
      exact hline
    · rw [transformLine_eq, hv]
      exact hline

set_option maxRecDepth 20000 in
/-- Closed instance of `c8_space_token_rewrite`, at the spec's own examples:
a leading epoch token is rewritten when the conversion succeeds,
`"notanumber foo bar"` passes through unchanged, and the same parsed token is
left unchanged under a conversion that raises (the `fun _ => none` branch). -/
theorem c8_space_token_rewrite_witness :
    (∃ q, pyFloat ⟨("1700000000 kernel: boot" : String).data.takeWhile (fun c => !(c == ' '))⟩
        = some (.finite q) ∧
      (transformLine fmtFixed "1700000000 kernel: boot").data
        = fmtStamp.data ++ (" kernel: boot" : String).data ∧
      transformLine (fun _ => none) "1700000000 kernel: boot"
        = "1700000000 kernel: boot") ∧
    transformLine fmtFixed "notanumber foo bar" = "notanumber foo bar" := by
  constructor
  · have hs : (pyFloat ⟨("1700000000 kernel: boot" : String).data.takeWhile
        (fun c => !(c == ' '))⟩).isSome = true := by decide
    obtain ⟨v, hv⟩ := Option.isSome_iff_exists.mp hs
    match v, hv with
    | .finite q, hv =>
        refine ⟨q, hv, ?_, ?_⟩
        · have h := ((c8_space_token_rewrite fmtFixed "1700000000 kernel: boot").2.1 q hv).1
            fmtStamp rfl
          rw [h]
          rfl
        · exact ((c8_space_token_rewrite (fun _ => none) "1700000000 kernel: boot").2.1
            q hv).2 rfl
    | .inf, hv => exact absurd hv (by decide)
    | .negInf, hv => exact absurd hv (by decide)
  · exact (c8_space_token_rewrite fmtFixed "notanumber foo bar").1 (by decide)

/-! ## Lemmas: the rotation size check of `write_logs` -/

theorem strLen (s : String) : s.data.length = s.length := rfl

theorem lenApp (c : List Char) (s : String) :
    (((c ++ s.data).length : ℕ) : ℚ) = (c.length : ℚ) + (s.length : ℚ) := by
  rw [List.length_append]
  push_cast
  rfl

theorem writtenPrefix_length (fmt : ℚ → Option String) (lines : List String) (k : Nat) :
    (writtenPrefix fmt lines k).length
      = ((lines.take k).map (fun l => (transformLine fmt l).length)).sum := by
  rw [writtenPrefix, List.length_flatten, List.map_map]
  rfl

/-- The capture loop, fed only proper lines whose total written length crosses
the threshold, returns `rotated` at the first crossing write. -/
theorem writeRun_crosses (fmt : ℚ → Option String) (maxFS : ℚ) :
    ∀ (lines : List String) (c : List Char) (fuel : Nat),
      lines.length < fuel →
      ((c.length : ℚ) ≤ maxFS) →
      (maxFS < (c.length : ℚ) + (((lines.map (fun l => (transformLine fmt l).length)).sum : ℕ) : ℚ)) →
      ∃ k, 0 < k ∧ k ≤ lines.length ∧
        writeRun fmt maxFS fuel c (lines.map Read.line) =
          some (.rotated (c ++ ((lines.take k).map (fun l => (transformLine fmt l).data)).flatten)) ∧
        maxFS < (c.length : ℚ) + ((((lines.take k).map (fun l => (transformLine fmt l).length)).sum : ℕ) : ℚ) ∧
        (c.length : ℚ) + ((((lines.take (k - 1)).map (fun l => (transformLine fmt l).length)).sum : ℕ) : ℚ) ≤ maxFS := by
  intro lines
  induction lines with
  | nil =>
      intro c fuel _ hle hcr
      exfalso
      simp at hcr
      linarith
  | cons s rest ih =>
      intro c fuel hfuel hle hcr
      cases fuel with
      | zero => simp at hfuel
      | succ n =>
          have hsum1 : (((s :: rest).map (fun l => (transformLine fmt l).length)).sum : ℚ)
              = ((transformLine fmt s).length : ℚ)
                + (((rest.map (fun l => (transformLine fmt l).length)).sum : ℕ) : ℚ) := by
            rw [List.map_cons, List.sum_cons]
            push_cast
            ring
          by_cases hc2 : maxFS < (((c ++ (transformLine fmt s).data).length : ℕ) : ℚ)
          · refine ⟨1, Nat.one_pos, by simp, ?_, ?_, ?_⟩
            · show writeRun fmt maxFS (n + 1) c (Read.line s :: rest.map Read.line) = _
              simp only [writeRun, if_pos hc2]
              simp
            · rw [List.take_succ_cons, List.take_zero, List.map_cons, List.map_nil,
                List.sum_cons, List.sum_nil]
              rw [lenApp] at hc2
              push_cast
              linarith
            · simpa using hle
          · have hfuel' : rest.length < n := by simpa using hfuel
            have hle' : (((c ++ (transformLine fmt s).data).length : ℕ) : ℚ) ≤ maxFS :=
              not_lt.mp hc2
            have hcr' : maxFS < (((c ++ (transformLine fmt s).data).length : ℕ) : ℚ)
                + (((rest.map (fun l => (transformLine fmt l).length)).sum : ℕ) : ℚ) := by
              rw [lenApp]
              rw [hsum1] at hcr
              linarith
            obtain ⟨k, hk0, hkle, heq, hcrs, hmin⟩ :=
              ih (c ++ (transformLine fmt s).data) n hfuel' hle' hcr'
            obtain ⟨k', rfl⟩ : ∃ k', k = k' + 1 := ⟨k - 1, by omega⟩
            have hsum2 : ∀ m : Nat,
                ((((s :: rest).take (m + 1)).map (fun l => (transformLine fmt l).length)).sum : ℚ)
                = ((transformLine fmt s).length : ℚ)
                  + ((((rest.take m).map (fun l => (transformLine fmt l).length)).sum : ℕ) : ℚ) := by
              intro m
              rw [List.take_succ_cons, List.map_cons, List.sum_cons]
              push_cast
              ring
            refine ⟨k' + 1 + 1, by omega, by simp; omega, ?_, ?_, ?_⟩
            · show writeRun fmt maxFS (n + 1) c (Read.line s :: rest.map Read.line) = _
              simp only [writeRun, if_neg hc2]
              rw [heq]
              congr 2
              rw [List.take_succ_cons, List.map_cons, List.flatten_cons, List.append_assoc]
            · rw [hsum2 (k' + 1)]
              rw [lenApp] at hcrs
              linarith
            · rw [Nat.add_sub_cancel]
              rw [Nat.add_sub_cancel] at hmin
              rw [hsum2 k']
              rw [lenApp] at hmin
              linarith

/-! ## Claim C6 -/

/-- C6: for every sequence of line writes whose cumulative written size
exceeds a nonnegative threshold, the capture loop closes the file and returns
control immediately after the write that makes the file size exceed the
threshold (returning exactly the first `k` writes, whose total crosses), and
never before any write has crossed it (the first `k - 1` writes total at most
the threshold). -/
theorem c6_rotation_trigger (fmt : ℚ → Option String) (maxFileSize : ℚ) (lines : List String)
    (h0 : 0 ≤ maxFileSize)
    (hcross : maxFileSize < (((lines.map (fun l => (transformLine fmt l).length)).sum : ℕ) : ℚ)) :
    ∃ k, 0 < k ∧ k ≤ lines.length ∧
      writeRun fmt maxFileSize (lines.length + 1) [] (lines.map Read.line) =
        some (.rotated (writtenPrefix fmt lines k)) ∧
      maxFileSize < ((writtenPrefix fmt lines k).length : ℚ) ∧
      ((writtenPrefix fmt lines (k - 1)).length : ℚ) ≤ maxFileSize := by
  obtain ⟨k, h1, h2, h3, h4, h5⟩ :=
    writeRun_crosses fmt maxFileSize lines [] (lines.length + 1) (by omega)
      (by simpa using h0) (by simpa using hcross)
  refine ⟨k, h1, h2, ?_, ?_, ?_⟩
  · simpa [writtenPrefix] using h3
  · rw [writtenPrefix_length]
    simpa using h4
  · rw [writtenPrefix_length]
    simpa using h5

/-- Closed instance of `c6_rotation_trigger`: two three-character lines
against a five-byte threshold. -/
theorem c6_rotation_trigger_witness :
    ∃ k, 0 < k ∧ k ≤ (["aaa", "bbb"] : List String).length ∧
      writeRun fmtFixed 5 ((["aaa", "bbb"] : List String).length + 1) []
          ((["aaa", "bbb"] : List String).map Read.line) =
        some (.rotated (writtenPrefix fmtFixed ["aaa", "bbb"] k)) ∧
      (5 : ℚ) < ((writtenPrefix fmtFixed ["aaa", "bbb"] k).length : ℚ) ∧
      ((writtenPrefix fmtFixed ["aaa", "bbb"] (k - 1)).length : ℚ) ≤ 5 := by
  apply c6_rotation_trigger fmtFixed 5 ["aaa", "bbb"] (by norm_num)
  have hsum : ((["aaa", "bbb"] : List String).map
      (fun l => (transformLine fmtFixed l).length)).sum = 6 := rfl
  rw [hsum]
  norm_num

/-! ## Lemmas: archive names and the collision probe -/

theorem strData_append (a b : String) : (a ++ b).data = a.data ++ b.data := rfl

theorem endsW_append_of_le (x s t : String) (h : t.data.length ≤ s.data.length) :
    endsW (x ++ s) t = endsW s t := by
  unfold endsW
  rw [strData_append, List.length_append]
  have hdrop : (x.data ++ s.data).drop (x.data.length + s.data.length - t.data.length)
      = s.data.drop (s.data.length - t.data.length) := by
    rw [show x.data.length + s.data.length - t.data.length
          = x.data.length + (s.data.length - t.data.length) by omega]
    rw [← List.drop_drop, List.drop_left]
  rw [hdrop]

theorem endsW_tarGz_not_txt (x : String) : endsW (x ++ ".tar.gz") ".txt" = false := by
  rw [endsW_append_of_le x ".tar.gz" ".txt" (by decide)]
  decide

theorem existsFile_false_iff (fs : List CFile) (n : String) :
    existsFile fs n = false ↔ n ∉ namesOf fs := by
  simp [existsFile]

theorem mem_namesOf (fs : List CFile) (n : String) :
    n ∈ namesOf fs ↔ ∃ g ∈ fs, g.name = n := by
  simp [namesOf]

theorem length_decStr_pow (K : Nat) : (decStr (10 ^ K)).data.length = K + 1 := by
  rw [decStr, if_neg (by positivity)]
  show ((Nat.digits 10 (10 ^ K)).reverse.map Nat.digitChar).length = K + 1
  rw [List.length_map, List.length_reverse]
  rw [Nat.digits_len 10 _ (by norm_num) (by positivity)]
  rw [Nat.log_pow (by norm_num)]

theorem length_fmt3_ge (i : Nat) : (decStr i).data.length ≤ (fmt3 i).data.length := by
  show _ ≤ (List.replicate (3 - (decStr i).data.length) '0' ++ (decStr i).data).length
  rw [List.length_append, List.length_replicate]
  omega

theorem length_tarName_ge (path : String) (i : Nat) :
    (fmt3 i).data.length ≤ (tarName path i).data.length := by
  show (fmt3 i).data.length ≤ (((path ++ ".") ++ fmt3 i) ++ ".tar.gz").data.length
  rw [strData_append, strData_append, List.length_append, List.length_append]
  omega

theorem foldr_max_le (l : List String) (n : String) (h : n ∈ l) :
    n.data.length ≤ l.foldr (fun m acc => max m.data.length acc) 0 := by
  induction l with
  | nil => exact absurd h (List.not_mem_nil n)
  | cons a rest ih =>
      rcases List.mem_cons.mp h with rfl | hr
      · exact le_max_left _ _
      · exact le_trans (ih hr) (le_max_right _ _)

theorem tarName_big_free (fs : List CFile) (path : String) :
    existsFile fs (tarName path (10 ^ maxNameLen fs)) = false := by
  rw [existsFile_false_iff]
  intro hmem
  have h1 : (tarName path (10 ^ maxNameLen fs)).data.length ≤ maxNameLen fs :=
    foldr_max_le (namesOf fs) _ hmem
  have h2 := length_decStr_pow (maxNameLen fs)
  have h3 := length_fmt3_ge (10 ^ maxNameLen fs)
  have h4 := length_tarName_ge path (10 ^ maxNameLen fs)
  omega

theorem probe_correct (fs : List CFile) (path : String) :
    ∀ fuel i, (∃ d, d < fuel ∧ existsFile fs (tarName path (i + d)) = false) →
      i ≤ probe fs path fuel i ∧
      existsFile fs (tarName path (probe fs path fuel i)) = false ∧
      ∀ j, i ≤ j → j < probe fs path fuel i → existsFile fs (tarName path j) = true := by
  intro fuel
  induction fuel with
  | zero =>
      intro i h
      obtain ⟨d, hd, _⟩ := h
      exact absurd hd (Nat.not_lt_zero d)
  | succ m ih =>
      intro i h
      obtain ⟨d, hd, hfree⟩ := h
      by_cases hex : existsFile fs (tarName path i) = true
      · have hprobe : probe fs path (m + 1) i = probe fs path m (i + 1) := by
          simp [probe, hex]
        have hd0 : d ≠ 0 := by
          intro h0
          subst h0
          rw [Nat.add_zero, hex] at hfree
          exact Bool.noConfusion hfree
        obtain ⟨h1, h2, h3⟩ := ih (i + 1)
          ⟨d - 1, by omega, by rw [show i + 1 + (d - 1) = i + d by omega]; exact hfree⟩
        rw [hprobe]
        refine ⟨by omega, h2, ?_⟩
        intro j hij hjp
        rcases Nat.eq_or_lt_of_le hij with rfl | hlt
        · exact hex
        · exact h3 j (by omega) hjp
      · simp only [Bool.not_eq_true] at hex
        have hprobe : probe fs path (m + 1) i = i := by
          simp [probe, hex]
        rw [hprobe]
        exact ⟨le_refl i, hex, fun j hij hji => absurd (lt_of_le_of_lt hij hji) (lt_irrefl i)⟩

theorem pickTarball_collision (fs : List CFile) (path : String)
    (h : existsFile fs (path ++ ".tar.gz") = true) :
    pickTarball fs path = tarName path (probe fs path (10 ^ maxNameLen fs + 1) 0) := by
  simp [pickTarball, h]

theorem pickTarball_free (fs : List CFile) (path : String) :
    existsFile fs (pickTarball fs path) = false := by
  by_cases h : existsFile fs (path ++ ".tar.gz") = true
  · rw [pickTarball_collision fs path h]
    exact (probe_correct fs path (10 ^ maxNameLen fs + 1) 0
      ⟨10 ^ maxNameLen fs, by omega, by rw [Nat.zero_add]; exact tarName_big_free fs path⟩).2.1
  · simp only [Bool.not_eq_true] at h
    simp [pickTarball, h]

theorem pickTarball_shape (fs : List CFile) (path : String) :
    ∃ x : String, pickTarball fs path = x ++ ".tar.gz" := by
  rw [pickTarball]
  split
  · exact ⟨path ++ "." ++ fmt3 _, rfl⟩
  · exact ⟨path, rfl⟩

theorem pickTarball_not_txt (fs : List CFile) (path : String) :
    endsW (pickTarball fs path) ".txt" = false := by
  obtain ⟨x, hx⟩ := pickTarball_shape fs path
  rw [hx]
  exact endsW_tarGz_not_txt x

theorem pickTarball_length_gt (fs : List CFile) (path : String) :
    path.data.length < (pickTarball fs path).data.length := by
  rw [pickTarball]
  split
  · show _ < (((path ++ ".") ++ fmt3 _) ++ ".tar.gz").data.length
    rw [strData_append, strData_append, strData_append,
      List.length_append, List.length_append, List.length_append]
    have : (0 : Nat) < (".tar.gz" : String).data.length := by decide
    omega
  · rw [strData_append, List.length_append]
    have : (0 : Nat) < (".tar.gz" : String).data.length := by decide
    omega

theorem pickTarball_ne (fs : List CFile) (path : String) : pickTarball fs path ≠ path := by
  intro h
  have hlen := pickTarball_length_gt fs path
  rw [h] at hlen
  exact lt_irrefl _ hlen

/-! ## Lemmas: the compression loop -/

theorem removeFile_addFile_fresh (fs : List CFile) (f : CFile) (h : f.name ∉ namesOf fs) :
    removeFile (addFile fs f) f.name = fs := by
  rw [removeFile, addFile, List.filter_append]
  have h1 : List.filter (fun g => !(g.name == f.name)) [f] = [] := by simp
  have h2 : List.filter (fun g => !(g.name == f.name)) fs = fs := by
    rw [List.filter_eq_self]
    intro g hg
    have hne : g.name ≠ f.name := fun heq => h (heq ▸ List.mem_map_of_mem (fun x => x.name) hg)
    simp [hne]
  rw [h1, h2, List.append_nil]

theorem compressOne_fail (env : TarEnv) (fs : List CFile) (src : CFile)
    (h : env.tarFails src.name = true) :
    compressOne env fs src = (fs, ["Compression failed for " ++ src.name]) := by
  simp only [compressOne, h, if_true]
  by_cases hd : env.debrisLeft src.name = true
  · rw [if_pos hd]
    rw [removeFile_addFile_fresh fs ⟨pickTarball fs src.name, src.mtime⟩
      ((existsFile_false_iff fs _).mp (pickTarball_free fs src.name))]
  · simp only [Bool.not_eq_true] at hd
    rw [hd]
    rfl

theorem compressOne_ok (env : TarEnv) (fs : List CFile) (src : CFile)
    (h : env.tarFails src.name = false) :
    compressOne env fs src
      = (removeFile (addFile fs ⟨pickTarball fs src.name, src.mtime⟩) src.name, []) := by
  simp [compressOne, h]

theorem compressOne_fail_fst (env : TarEnv) (fs : List CFile) (src : CFile)
    (h : env.tarFails src.name = true) :
    (compressOne env fs src).1 = fs := by
  rw [compressOne_fail env fs src h]

theorem compressOne_fail_snd (env : TarEnv) (fs : List CFile) (src : CFile)
    (h : env.tarFails src.name = true) :
    (compressOne env fs src).2 = ["Compression failed for " ++ src.name] := by
  rw [compressOne_fail env fs src h]

theorem compressOne_ok_fst (env : TarEnv) (fs : List CFile) (src : CFile)
    (h : env.tarFails src.name = false) :
    (compressOne env fs src).1
      = removeFile (addFile fs ⟨pickTarball fs src.name, src.mtime⟩) src.name := by
  rw [compressOne_ok env fs src h]

theorem mem_removeFile {fs : List CFile} {g : CFile} {n : String} :
    g ∈ removeFile fs n ↔ g ∈ fs ∧ g.name ≠ n := by
  simp [removeFile]

theorem mem_addFile {fs : List CFile} {g f : CFile} :
    g ∈ addFile fs f ↔ g ∈ fs ∨ g = f := by
  simp [addFile]

theorem not_mem_namesOf_compressOne (env : TarEnv) (fs : List CFile) (p : CFile)
    (n : String) (htxt : endsW n ".txt" = true) (hn : n ∉ namesOf fs) :
    n ∉ namesOf (compressOne env fs p).1 := by
  intro hmem
  obtain ⟨g, hg, hgname⟩ := (mem_namesOf _ _).mp hmem
  by_cases hf : env.tarFails p.name = true
  · rw [compressOne_fail_fst env fs p hf] at hg
    exact hn ((mem_namesOf _ _).mpr ⟨g, hg, hgname⟩)
  · simp only [Bool.not_eq_true] at hf
    rw [compressOne_ok_fst env fs p hf] at hg
    obtain ⟨hg1, _⟩ := mem_removeFile.mp hg
    rcases mem_addFile.mp hg1 with hgfs | rfl
    · exact hn ((mem_namesOf _ _).mpr ⟨g, hgfs, hgname⟩)
    · have : endsW n ".txt" = false := by
        rw [← hgname]
        exact pickTarball_not_txt fs p.name
      rw [htxt] at this
      exact Bool.noConfusion this

theorem compressGo_cons (env : TarEnv) (p : CFile) (rest fs : List CFile) (log : List String) :
    compressGo env (p :: rest) fs log
      = compressGo env rest (compressOne env fs p).1 (log ++ (compressOne env fs p).2) := rfl

theorem compressGo_txt_absent (env : TarEnv) (n : String) (htxt : endsW n ".txt" = true) :
    ∀ (pending fs : List CFile) (log : List String),
      n ∉ namesOf fs → n ∉ namesOf (compressGo env pending fs log).1 := by
  intro pending
  induction pending with
  | nil => intro fs log h; exact h
  | cons p rest ih =>
      intro fs log h
      rw [compressGo_cons]
      exact ih _ _ (not_mem_namesOf_compressOne env fs p n htxt h)

theorem compressGo_keeps_failing (env : TarEnv) (f : CFile)
    (hfail : env.tarFails f.name = true) :
    ∀ (pending fs : List CFile) (log : List String),
      f ∈ fs → f ∈ (compressGo env pending fs log).1 := by
  intro pending
  induction pending with
  | nil => intro fs log hf; exact hf
  | cons p rest ih =>
      intro fs log hf
      rw [compressGo_cons]
      apply ih
      by_cases hp : env.tarFails p.name = true
      · rw [compressOne_fail_fst env fs p hp]
        exact hf
      · simp only [Bool.not_eq_true] at hp
        rw [compressOne_ok_fst env fs p hp]
        rw [mem_removeFile]
        refine ⟨mem_addFile.mpr (Or.inl hf), ?_⟩
        intro heq
        rw [heq, hp] at hfail
        exact Bool.noConfusion hfail

theorem compressGo_snd_extends (env : TarEnv) :
    ∀ (pending fs : List CFile) (log : List String) (x : String),
      x ∈ log → x ∈ (compressGo env pending fs log).2 := by
  intro pending
  induction pending with
  | nil => intro fs log x hx; exact hx
  | cons p rest ih =>
      intro fs log x hx
      rw [compressGo_cons]
      exact ih _ _ x (List.mem_append_left _ hx)

theorem compressGo_logs_failure (env : TarEnv) (f : CFile)
    (hfail : env.tarFails f.name = true) :
    ∀ (pending fs : List CFile) (log : List String),
      f ∈ pending →
      ("Compression failed for " ++ f.name) ∈ (compressGo env pending fs log).2 := by
  intro pending
  induction pending with
  | nil => intro fs log h; exact absurd h (List.not_mem_nil f)
  | cons p rest ih =>
      intro fs log h
      rcases List.mem_cons.mp h with rfl | hrest
      · rw [compressGo_cons]
        apply compressGo_snd_extends
        rw [compressOne_fail_snd env fs f hfail]
        exact List.mem_append_right _ (List.mem_singleton.mpr rfl)
      · rw [compressGo_cons]
        exact ih _ _ hrest

theorem compressGo_removes_ok (env : TarEnv) (n : String)
    (htxt : endsW n ".txt" = true) (hok : env.tarFails n = false) :
    ∀ (pending fs : List CFile) (log : List String),
      (∃ p ∈ pending, p.name = n) →
      n ∉ namesOf (compressGo env pending fs log).1 := by
  intro pending
  induction pending with
  | nil =>
      rintro fs log ⟨p, hp, _⟩
      exact absurd hp (List.not_mem_nil p)
  | cons p rest ih =>
      rintro fs log ⟨q, hq, hqname⟩
      rcases List.mem_cons.mp hq with rfl | hrest
      · rw [compressGo_cons]
        apply compressGo_txt_absent env n htxt
        have hq' : env.tarFails q.name = false := by rw [hqname]; exact hok
        rw [compressOne_ok_fst env fs q hq']
        intro hmem
        obtain ⟨g, hg, hgname⟩ := (mem_namesOf _ _).mp hmem
        obtain ⟨_, hg2⟩ := mem_removeFile.mp hg
        exact hg2 (hgname.trans hqname.symm)
      · rw [compressGo_cons]
        exact ih _ _ ⟨q, hrest, hqname⟩

theorem compressGo_all_fail_fst (env : TarEnv) :
    ∀ (pending fs : List CFile) (log : List String),
      (∀ p ∈ pending, env.tarFails p.name = true) →
      (compressGo env pending fs log).1 = fs := by
  intro pending
  induction pending with
  | nil => intro fs log _; rfl
  | cons p rest ih =>
      intro fs log h
      rw [compressGo_cons, compressOne_fail_fst env fs p (h p (List.mem_cons_self p rest))]
      exact ih _ _ fun q hq => h q (List.mem_cons_of_mem p hq)

theorem compressGo_txt_fails (env : TarEnv) :
    ∀ (pending fs : List CFile) (log : List String),
      (∀ g ∈ fs, endsW g.name ".txt" = true → g ∈ pending ∨ env.tarFails g.name = true) →
      ∀ g ∈ (compressGo env pending fs log).1, endsW g.name ".txt" = true →
        env.tarFails g.name = true := by
  intro pending
  induction pending with
  | nil =>
      intro fs log h g hg htxt
      rcases h g hg htxt with h1 | h2
      · exact absurd h1 (List.not_mem_nil g)
      · exact h2
  | cons p rest ih =>
      intro fs log h g hg htxt
      rw [compressGo_cons] at hg
      refine ih _ _ ?_ g hg htxt
      intro g' hg' htxt'
      by_cases hp : env.tarFails p.name = true
      · rw [compressOne_fail_fst env fs p hp] at hg'
        rcases h g' hg' htxt' with h1 | h2
        · rcases List.mem_cons.mp h1 with rfl | hr
          · exact Or.inr hp
          · exact Or.inl hr
        · exact Or.inr h2
      · simp only [Bool.not_eq_true] at hp
        rw [compressOne_ok_fst env fs p hp] at hg'
        obtain ⟨hg1, hgne⟩ := mem_removeFile.mp hg'
        rcases mem_addFile.mp hg1 with hgfs | rfl
        · rcases h g' hgfs htxt' with h1 | h2
          · rcases List.mem_cons.mp h1 with rfl | hr
            · exact absurd rfl hgne
            · exact Or.inl hr
          · exact Or.inr h2
        · have hfalse : endsW (pickTarball fs p.name) ".txt" = false :=
            pickTarball_not_txt fs p.name
          rw [htxt'] at hfalse
          exact Bool.noConfusion hfalse

/-! ## Claim C3 -/

/-- C3: for a candidate file whose archive creation raises, the failing
iteration's net effect on the directory is nothing (the partial archive, if
created, is deleted and the source left intact), the failure is logged, the
source survives the whole batch, and every other candidate whose compression
succeeds is still compressed (its source removed) — one file's failure never
aborts the batch. -/
theorem c3_failure_isolated (env : TarEnv) (fs : List CFile) (f : CFile)
    (hmem : f ∈ fs) (htxt : endsW f.name ".txt" = true)
    (hfail : env.tarFails f.name = true) :
    (compressOne env fs f).1 = fs ∧
    f ∈ (compress_files env fs).1 ∧
    ("Compression failed for " ++ f.name) ∈ (compress_files env fs).2 ∧
    ∀ g ∈ fs, endsW g.name ".txt" = true → env.tarFails g.name = false →
      g.name ∉ namesOf (compress_files env fs).1 := by
  refine ⟨compressOne_fail_fst env fs f hfail, ?_, ?_, ?_⟩
  · exact compressGo_keeps_failing env f hfail _ fs [] hmem
  · exact compressGo_logs_failure env f hfail _ fs [] (List.mem_filter.mpr ⟨hmem, htxt⟩)
  · intro g hg htg hok
    exact compressGo_removes_ok env g.name htg hok _ fs []
      ⟨g, List.mem_filter.mpr ⟨hg, htg⟩, rfl⟩

/-- Closed instance of `c3_failure_isolated`: `a.txt` fails (leaving debris),
`b.txt` succeeds. -/
theorem c3_failure_isolated_witness :
    (compressOne ⟨fun n => n == "a.txt", fun n => n == "a.txt"⟩
        [⟨"a.txt", 1⟩, ⟨"b.txt", 2⟩] ⟨"a.txt", 1⟩).1 = [⟨"a.txt", 1⟩, ⟨"b.txt", 2⟩] ∧
    (⟨"a.txt", 1⟩ : CFile) ∈ (compress_files ⟨fun n => n == "a.txt", fun n => n == "a.txt"⟩
        [⟨"a.txt", 1⟩, ⟨"b.txt", 2⟩]).1 ∧
    ("Compression failed for " ++ "a.txt")
      ∈ (compress_files ⟨fun n => n == "a.txt", fun n => n == "a.txt"⟩
        [⟨"a.txt", 1⟩, ⟨"b.txt", 2⟩]).2 ∧
    ∀ g ∈ ([⟨"a.txt", 1⟩, ⟨"b.txt", 2⟩] : List CFile), endsW g.name ".txt" = true →
      (fun n => n == "a.txt") g.name = false →
      g.name ∉ namesOf (compress_files ⟨fun n => n == "a.txt", fun n => n == "a.txt"⟩
        [⟨"a.txt", 1⟩, ⟨"b.txt", 2⟩]).1 :=
  c3_failure_isolated ⟨fun n => n == "a.txt", fun n => n == "a.txt"⟩
    [⟨"a.txt", 1⟩, ⟨"b.txt", 2⟩] ⟨"a.txt", 1⟩ (by decide) (by decide) (by decide)

/-! ## Claim C7 -/

/-- C7: when the default archive name `path ++ ".tar.gz"` is already taken,
the picked archive name is `tarName path i` for the smallest index `i` whose
name is unused (the probe tries 000, 001, … in order); the picked name never
coincides with an existing file, so no existing archive is overwritten; and a
successful compression run actually writes the archive under the picked name
(with the source's mtime). -/
theorem c7_collision_naming (fs : List CFile) (path : String)
    (h : existsFile fs (path ++ ".tar.gz") = true) :
    (∃ i, pickTarball fs path = tarName path i ∧
      existsFile fs (tarName path i) = false ∧
      ∀ j < i, existsFile fs (tarName path j) = true) ∧
    existsFile fs (pickTarball fs path) = false ∧
    ∀ (env : TarEnv) (src : CFile), src.name = path → env.tarFails path = false →
      (⟨pickTarball fs path, src.mtime⟩ : CFile) ∈ (compressOne env fs src).1 := by
  have hpc := probe_correct fs path (10 ^ maxNameLen fs + 1) 0
    ⟨10 ^ maxNameLen fs, by omega, by rw [Nat.zero_add]; exact tarName_big_free fs path⟩
  refine ⟨⟨probe fs path (10 ^ maxNameLen fs + 1) 0, pickTarball_collision fs path h,
      hpc.2.1, fun j hj => hpc.2.2 j (Nat.zero_le j) hj⟩,
    pickTarball_free fs path, ?_⟩
  intro env src hname hok
  have hok' : env.tarFails src.name = false := by rw [hname]; exact hok
  rw [compressOne_ok_fst env fs src hok']
  rw [mem_removeFile]
  constructor
  · rw [hname]
    exact mem_addFile.mpr (Or.inr rfl)
  · show pickTarball fs path ≠ src.name
    rw [hname]
    exact pickTarball_ne fs path

/-- Closed instance of `c7_collision_naming`: `foo.txt.tar.gz` exists, and the
name picked for compressing `foo.txt` collides with nothing. -/
theorem c7_collision_naming_witness :
    existsFile [⟨"foo.txt", 5⟩, ⟨"foo.txt.tar.gz", 3⟩]
        (pickTarball [⟨"foo.txt", 5⟩, ⟨"foo.txt.tar.gz", 3⟩] "foo.txt") = false :=
  (c7_collision_naming [⟨"foo.txt", 5⟩, ⟨"foo.txt.tar.gz", 3⟩] "foo.txt" (by decide)).2.1

/-! ## Claim C10 -/

/-- C10: running `compress_files` on a directory with no `.txt` files is a
no-op on the directory, and running it twice in a row with no new rotations in
between leaves the same final file set as running it once: every `.txt` file
surviving the first run is one whose compression fails, and a failing
iteration does not change the directory. -/
theorem c10_compress_idempotent (env : TarEnv) (fs : List CFile) :
    ((∀ f ∈ fs, endsW f.name ".txt" = false) → (compress_files env fs).1 = fs) ∧
    (compress_files env (compress_files env fs).1).1 = (compress_files env fs).1 := by
  constructor
  · intro h
    show (compressGo env (fs.filter (fun f => endsW f.name ".txt")) fs []).1 = fs
    rw [List.filter_eq_nil_iff.mpr (by intro a ha; simp [h a ha])]
    rfl
  · have hfails : ∀ g ∈ (compress_files env fs).1, endsW g.name ".txt" = true →
        env.tarFails g.name = true := by
      apply compressGo_txt_fails env (fs.filter (fun f => endsW f.name ".txt")) fs []
      intro g hg htxt
      exact Or.inl (List.mem_filter.mpr ⟨hg, htxt⟩)
    show (compressGo env ((compress_files env fs).1.filter (fun f => endsW f.name ".txt"))
        (compress_files env fs).1 []).1 = (compress_files env fs).1
    apply compressGo_all_fail_fst
    intro p hp
    have hp' := List.mem_filter.mp hp
    exact hfails p hp'.1 hp'.2

/-- Closed instance of `c10_compress_idempotent`: a directory holding only an
archive. -/
theorem c10_compress_idempotent_witness :
    ((compress_files ⟨fun _ => false, fun _ => false⟩ [⟨"x.tar.gz", 1⟩]).1
        = [⟨"x.tar.gz", 1⟩]) ∧
    (compress_files ⟨fun _ => false, fun _ => false⟩
        (compress_files ⟨fun _ => false, fun _ => false⟩ [⟨"x.tar.gz", 1⟩]).1).1
      = (compress_files ⟨fun _ => false, fun _ => false⟩ [⟨"x.tar.gz", 1⟩]).1 :=
  ⟨(c10_compress_idempotent ⟨fun _ => false, fun _ => false⟩ [⟨"x.tar.gz", 1⟩]).1 (by decide),
   (c10_compress_idempotent ⟨fun _ => false, fun _ => false⟩ [⟨"x.tar.gz", 1⟩]).2⟩

end Logfile
